import Mathlib

/-!
Verification of the ccp copy engine against its specification.

The Go sources are embedded shallowly:
* backend operations (Remove, Lstat, ReadDir, Create, ...) are modelled by
  explicit oracle values giving the result of each call the code performs;
* `fs.WalkDir` is modelled by the sequence of entries it delivers to the
  callback;
* the copier's `Progress` calls and its destination-creating operations are
  reified as an event trace;
* the worker-pool semaphore is modelled as a step relation on an abstract
  pool state.

Sources embedded: internal/wfs/wfs.go, internal/cp/cp.go, ccp.go.
-/

/-- Abstract error values returned by backend operations. `notExist` is the
one value recognized by `errors.Is(err, fs.ErrNotExist)`; every other
constructor is a distinct error that is not a not-exist error. -/
inductive GErr where
  | notExist
  | permission
  | walkFail
  | infoFail
  | openFail
  | statFail
  | ioFail
  | closeFail
  | unknownType
  | errCode (n : Nat)
deriving DecidableEq, Repr

/-! ## wfs.RemoveAll (internal/wfs/wfs.go:75-130)

`RemoveAll` drives a recursion whose control flow depends only on the results
of the backend calls it makes.  Those results are collected in an oracle tree
whose shape mirrors the call tree: for each entry reached by `removeAll`, the
result of the initial `Remove`, and — when the walk recurses into a
directory — the `ReadDir` error, the oracles of the children, and the result
of the final `Remove` of the directory itself. -/

mutual
/-- Oracle for `wfs.removeAll` on one directory entry.  `fileT rm` is an
entry whose `DirEntry.IsDir()` is false with `rm` the result of `Remove`;
`dirT rm readErr children finRes` is a directory entry: `rm` the initial
`Remove` result, `readErr` the `fs.ReadDir` error, `children` the oracles of
the listed children and `finRes` the result of the final `Remove`. -/
inductive RTree where
  | fileT (rm : Option GErr)
  | dirT (rm : Option GErr) (readErr : Option GErr) (children : RForest) (finRes : Option GErr)

/-- A list of child oracles (a separate inductive so that all recursion below
is plain mutual structural recursion). -/
inductive RForest where
  | nil
  | cons (hd : RTree) (tl : RForest)
end

mutual
/-- Shallow embedding of `wfs.removeAll` (wfs.go:96-105): `Remove` first;
success or not-exist is success; otherwise a non-directory entry returns the
`Remove` error and a directory entry falls through to `removeDir`. -/
def removeAllFrom : RTree → Option GErr
  | .fileT rm => if rm = none ∨ rm = some GErr.notExist then none else rm
  | .dirT rm readErr cs finRes =>
    if rm = none ∨ rm = some GErr.notExist then none
    else removeDirT readErr cs finRes

/-- Shallow embedding of `wfs.removeDir` (wfs.go:75-94).  `err` accumulates
the first non-nil child error, then the `ReadDir` error; the final test is
`err1 == nil || errors.Is(err, fs.ErrNotExist)` — on the accumulated child
error `err`, exactly as written in the source. -/
def removeDirT (readErr : Option GErr) (cs : RForest) (finRes : Option GErr) : Option GErr :=
  let e0 := firstChildErr cs
  let e1 := if e0 = none then readErr else e0
  if finRes = none ∨ e1 = some GErr.notExist then none
  else if e1 = none then finRes else e1

/-- The loop `for _, d := range entries` of wfs.go:78-82: every child is
attempted, and `err` keeps the first non-nil result. -/
def firstChildErr : RForest → Option GErr
  | .nil => none
  | .cons c cs =>
    match removeAllFrom c with
    | some e => some e
    | none => firstChildErr cs
end

/-- Oracle for one call to `wfs.RemoveAll` (wfs.go:110-130): the result of
the initial `Remove`, the `Lstat` result (`isDir` on success), and the
directory oracle consumed when the code recurses. -/
structure RAOracle where
  rm : Option GErr
  lstatRes : Except GErr Bool
  readErr : Option GErr
  children : RForest
  finRes : Option GErr

/-- Shallow embedding of `wfs.RemoveAll` (wfs.go:110-130). -/
def RemoveAllGo (o : RAOracle) : Option GErr :=
  if o.rm = none ∨ o.rm = some GErr.notExist then none
  else
    match o.lstatRes with
    | .error e => if e = GErr.notExist then none else some e
    | .ok isDir =>
      if isDir = false then o.rm
      else removeDirT o.readErr o.children o.finRes

/-! ## copier.openWithRetry (internal/cp/cp.go:102-120) -/

/-- Oracle for one `openWithRetry` call: result of the first `fn()` call, the
`Lstat` error observed by `FSPath.exists` (`none` meaning `Lstat` succeeded),
the `RemoveAll` result and the result of the retried `fn()` call. -/
structure RetryOracle where
  firstRes : Option GErr
  lstatErr : Option GErr
  removeAllRes : Option GErr
  retryRes : Option GErr
deriving DecidableEq, Repr

/-- Actions `openWithRetry` performs, in order. -/
inductive RAct where
  | callFn
  | removeAllA
deriving DecidableEq, Repr

/-- Shallow embedding of `FSPath.exists` (cp.go:102-105):
`!errors.Is(err, fs.ErrNotExist)` on the `Lstat` error. -/
def existsGo (lstatErr : Option GErr) : Bool :=
  !(lstatErr == some GErr.notExist)

/-- Shallow embedding of `copier.openWithRetry` (cp.go:112-120), returning
the list of performed actions together with the returned error. -/
def openWithRetryGo (force : Bool) (o : RetryOracle) : List RAct × Option GErr :=
  if o.firstRes = none ∨ force = false ∨ existsGo o.lstatErr = false then
    ([RAct.callFn], o.firstRes)
  else
    match o.removeAllRes with
    | some e => ([RAct.callFn, RAct.removeAllA], some e)
    | none => ([RAct.callFn, RAct.removeAllA, RAct.callFn], o.retryRes)

/-- The retry policy as the amended claim words it: on first-call success
return it; on failure with `force` false or a not-exist destination propagate
the original error; otherwise run remove-all — if remove-all fails its error
is propagated and the call is not retried, and if remove-all succeeds the
call is retried exactly once with the retry's result propagated. -/
def retrySpecAmended (force : Bool) (o : RetryOracle) : List RAct × Option GErr :=
  match o.firstRes with
  | none => ([RAct.callFn], none)
  | some e =>
    if force = false ∨ o.lstatErr = some GErr.notExist then ([RAct.callFn], some e)
    else
      match o.removeAllRes with
      | some e2 => ([RAct.callFn, RAct.removeAllA], some e2)
      | none => ([RAct.callFn, RAct.removeAllA, RAct.callFn], o.retryRes)

/-! ## POSIX path helpers (package `path`, package `strings`)

cp.go manipulates destination paths with `path.Clean`, `path.Join`,
`path.Base` and `strings.TrimPrefix`.  These standard-library functions are
embedded over `List Char` with the documented lexical semantics of Go's
`path` package. -/

/-- Splits a character list on the separator `/`; `cur` accumulates the
current segment reversed. -/
def splitSlash (cur : List Char) : List Char → List (List Char)
  | [] => [cur.reverse]
  | c :: rest =>
    if c = '/' then cur.reverse :: splitSlash [] rest
    else splitSlash (c :: cur) rest

/-- Segment processing of `path.Clean`: drop empty and `.` segments, resolve
`..` against the accumulator (rooted paths swallow leading `..`). `acc` holds
the output segments in reverse. -/
def cleanCore (rooted : Bool) (acc : List (List Char)) : List (List Char) → List (List Char)
  | [] => acc.reverse
  | s :: rest =>
    if s = [] ∨ s = ['.'] then cleanCore rooted acc rest
    else if s = ['.', '.'] then
      match acc with
      | [] =>
        if rooted then cleanCore rooted [] rest
        else cleanCore rooted [['.', '.']] rest
      | t :: ts =>
        if t = ['.', '.'] then cleanCore rooted (['.', '.'] :: t :: ts) rest
        else cleanCore rooted ts rest
    else cleanCore rooted (s :: acc) rest

/-- Interleaves `/` between segments. -/
def interSlash : List (List Char) → List Char
  | [] => []
  | [s] => s
  | s :: rest => s ++ '/' :: interSlash rest

/-- Embedding of Go `path.Clean`. -/
def pathClean (p : String) : String :=
  if p.data = [] then "."
  else
    let rooted : Bool :=
      match p.data with
      | '/' :: _ => true
      | _ => false
    let segs := cleanCore rooted [] (splitSlash [] p.data)
    if rooted then String.mk ('/' :: interSlash segs)
    else if segs = [] then "." else String.mk (interSlash segs)

/-- Embedding of Go `path.Join` on two elements: non-empty elements joined
with `/`, then cleaned; all-empty input yields the empty string. -/
def pathJoin (a b : String) : String :=
  if a.data = [] ∧ b.data = [] then ""
  else if a.data = [] then pathClean b
  else if b.data = [] then pathClean a
  else pathClean (String.mk (a.data ++ '/' :: b.data))

/-- Embedding of Go `path.Base`: last non-empty segment; `"."` for the empty
path; `"/"` when the path consists only of slashes. -/
def pathBase (p : String) : String :=
  if p.data = [] then "."
  else
    match ((splitSlash [] p.data).filter (fun s => s ≠ [])).getLast? with
    | some s => String.mk s
    | none => "/"

/-- Drops `pre` from the front of `s`, or fails if `pre` is not a prefix. -/
def dropPre : List Char → List Char → Option (List Char)
  | [], s => some s
  | _ :: _, [] => none
  | p :: ps, c :: cs => if p = c then dropPre ps cs else none

/-- Embedding of Go `strings.TrimPrefix`. -/
def trimPre (s pre : String) : String :=
  match dropPre pre.data s.data with
  | some rest => String.mk rest
  | none => s

/-! ## The copy engine (internal/cp/cp.go)

A walk of a source tree is modelled by the sequence of callback invocations
`fs.WalkDir` performs: each is either an entry visit (err == nil, with the
`DirEntry` data the code consults) or an error visit (err != nil).  The same
sequence drives both the `size` pre-scan and the main traversal, which walk
the same tree.  An entry's `relPath` is the part of the walk path after the
cleaned source root, so that the walk path is `cleanRoot ++ relPath` ("" for
the root itself). -/

/-- The data of a visited `DirEntry` that cp.go consults: `d.Type()`, and for
regular files `d.Info()` (`infoOk` false models an `Info` error, `sz` the
size), for directories `d.Info()`'s permission mode. -/
inductive EntryKind where
  | regular (sz : Nat) (infoOk : Bool)
  | directory (mode : Nat) (infoOk : Bool)
  | symlink (target : String)
  | other
deriving DecidableEq, Repr

/-- One callback invocation of `fs.WalkDir`. -/
inductive Visit where
  | entry (relPath : String) (k : EntryKind)
  | failed (relPath : String)
deriving DecidableEq, Repr

/-- An `FSPath` (cp.go:23-26): backend identity paired with a path. -/
structure FSPath where
  fsId : Nat
  path : String
deriving DecidableEq, Repr

/-- One source root passed to `Copy`, together with the visit sequence the
walk of its tree delivers. -/
structure Source where
  fsId : Nat
  path : String
  visits : List Visit

/-- Events of a `Copy` run: the `Progress` interface calls, and the
destination operations the copier performs (successful create / mkdir /
symlink / chmod on the destination backend). -/
inductive Ev where
  | maxEv (n : Nat)
  | progressEv (n : Nat)
  | fileStartEv (src dst : FSPath)
  | fileDoneEv (src : FSPath) (err : Option GErr)
  | createEv (dst : FSPath)
  | mkdirEv (dst : FSPath)
  | symlinkEv (dst : FSPath)
  | chmodEv (dst : FSPath) (mode : Nat)
deriving DecidableEq, Repr

/-- The accumulator step of the `size` walk callback (cp.go:82-97): regular
files add `1 + stat.Size()` when `Info` succeeds, symlinks and directories
add 1, error visits and other kinds add nothing. -/
def sizeStep (n : Nat) (v : Visit) : Nat :=
  match v with
  | .failed _ => n
  | .entry _ k =>
    match k with
    | .regular sz infoOk => if infoOk then n + (1 + sz) else n
    | .directory _ _ => n + 1
    | .symlink _ => n + 1
    | .other => n

/-- Shallow embedding of `size` (cp.go:79-100). -/
def sizeGo (srcs : List Source) : Nat :=
  srcs.foldl (fun n s => s.visits.foldl sizeStep n) 0

/-- Work units of one visited entry as the specification words them: every
symlink and every directory is 1 unit, every regular file is
`size_in_bytes + 1` units, and entries whose walk or `Info` errors contribute
nothing. -/
def visitUnits : Visit → Nat
  | .failed _ => 0
  | .entry _ (.regular sz infoOk) => if infoOk then sz + 1 else 0
  | .entry _ (.directory _ _) => 1
  | .entry _ (.symlink _) => 1
  | .entry _ .other => 0

/-- The specification's total: the sum of `visitUnits` over every entry
reachable by walking each source tree. -/
def specTotal (srcs : List Source) : Nat :=
  (srcs.map (fun s => (s.visits.map visitUnits).sum)).sum

/-- Oracle for one `copier.copyRegularFile` call (cp.go:122-161): whether
`src.Open` and `in.Stat` succeed, the overall result of the
`openWithRetry`-wrapped `Create`, the byte counts the `io.CopyN` loop
delivers, whether the loop ends in an error instead of `io.EOF`, and whether
the final `Close` succeeds. -/
structure FileOracle where
  openOk : Bool
  statOk : Bool
  createErr : Option GErr
  chunks : List Nat
  streamFail : Bool
  closeOk : Bool
deriving DecidableEq, Repr

/-- Shallow embedding of `copier.copyRegularFile` (cp.go:122-161): the events
it emits (`createEv` marks the successful destination create) and its return
value. -/
def copyRegularFileT (src dst : FSPath) (o : FileOracle) : List Ev × Option GErr :=
  let start := Ev.fileStartEv src dst
  if o.openOk = false then ([start], some GErr.openFail)
  else if o.statOk = false then ([start], some GErr.statFail)
  else
    match o.createErr with
    | some e => ([start], some e)
    | none =>
      let ps := (o.chunks.filter (fun n => decide (0 < n))).map Ev.progressEv
      if o.streamFail then (start :: Ev.createEv dst :: ps, some GErr.ioFail)
      else if o.closeOk = false then (start :: Ev.createEv dst :: ps, some GErr.closeFail)
      else (start :: Ev.createEv dst :: (ps ++ [Ev.progressEv 1, Ev.fileDoneEv src none]), none)

/-- The regular-file dispatch of `Copy` (cp.go:217-224): run
`copyRegularFile` and report a `FileDone` with the error when it fails. -/
def dispatchFile (src dst : FSPath) (o : FileOracle) : List Ev :=
  let r := copyRegularFileT src dst o
  match r.2 with
  | some e => r.1 ++ [Ev.fileDoneEv src (some e)]
  | none => r.1

/-- The `io.CopyN` loop's chunk sequence for a fully successful stream of a
`sz`-byte file in 1 MiB chunks. -/
def chunksOf (sz : Nat) : List Nat :=
  List.replicate (sz / 1048576) 1048576 ++ (if sz % 1048576 = 0 then [] else [sz % 1048576])

/-- Oracle of a copy in which every backend operation succeeds. -/
def happyOracle (sz : Nat) : FileOracle :=
  { openOk := true, statOk := true, createErr := none,
    chunks := chunksOf sz, streamFail := false, closeOk := true }

/-- Events of one main-traversal visit (cp.go:209-255), with every
destination operation succeeding, together with the read-only directories it
defers (cp.go:242-246).  Note the traversal of cp.go does not skip the
subtree after a directory `Info` failure: it reports the error and returns
nil, so later visits still occur — they are later elements of the visit
list. -/
def visitEvents (srcFs : Nat) (cleanRoot : String) (droot : FSPath) :
    Visit → List Ev × List (FSPath × Nat)
  | .failed rel => ([Ev.fileDoneEv ⟨srcFs, cleanRoot ++ rel⟩ (some GErr.walkFail)], [])
  | .entry rel k =>
    let src : FSPath := ⟨srcFs, cleanRoot ++ rel⟩
    let dst : FSPath := ⟨droot.fsId, pathJoin droot.path (trimPre (cleanRoot ++ rel) cleanRoot)⟩
    match k with
    | .regular sz _ => (dispatchFile src dst (happyOracle sz), [])
    | .directory mode infoOk =>
      if infoOk = false then ([Ev.fileDoneEv src (some GErr.infoFail)], [])
      else if mode &&& 0o300 = 0o300 then ([Ev.mkdirEv dst, Ev.progressEv 1], [])
      else ([Ev.mkdirEv dst], [(dst, mode &&& 0o777)])
    | .symlink _ => ([Ev.symlinkEv dst, Ev.progressEv 1], [])
    | .other => ([Ev.fileDoneEv src (some GErr.unknownType)], [])

/-- Events and deferred chmods of a whole visit sequence. -/
def visitsEvents (srcFs : Nat) (cleanRoot : String) (droot : FSPath) :
    List Visit → List Ev × List (FSPath × Nat)
  | [] => ([], [])
  | v :: vs =>
    let p := visitEvents srcFs cleanRoot droot v
    let q := visitsEvents srcFs cleanRoot droot vs
    (p.1 ++ q.1, p.2 ++ q.2)

/-- Shallow embedding of `dstIsDir` (cp.go:185-189): true unless exactly one
source is given and `dstRoot.Stat()` fails (`dstStat = none`) or reports a
non-directory (`dstStat = some false`). -/
def dstIsDirGo (srcs : List Source) (dstStat : Option Bool) : Bool :=
  if srcs.length = 1 then dstStat.getD false else true

/-- The per-source destination root of cp.go:204-207: append the source
basename when the destination is treated as a directory. -/
def sourceDstRoot (isDir : Bool) (dstRoot : FSPath) (s : Source) : FSPath :=
  if isDir then ⟨dstRoot.fsId, pathJoin dstRoot.path (pathBase s.path)⟩ else dstRoot

/-- Traversal of the whole source list (the loop of cp.go:203-256). -/
def sourcesEvents (isDir : Bool) (dstRoot : FSPath) :
    List Source → List Ev × List (FSPath × Nat)
  | [] => ([], [])
  | s :: ss =>
    let p := visitsEvents s.fsId (pathClean s.path) (sourceDstRoot isDir dstRoot s) s.visits
    let q := sourcesEvents isDir dstRoot ss
    (p.1 ++ q.1, p.2 ++ q.2)

/-- The deferred-chmod phase (cp.go:260-266) on the already reversed list,
with every chmod succeeding. -/
def chmodEvents : List (FSPath × Nat) → List Ev
  | [] => []
  | (p, m) :: rest => Ev.chmodEv p m :: Ev.progressEv 1 :: chmodEvents rest

/-- Shallow embedding of `Copy` (cp.go:177-267) as a sequentialized event
trace: the pre-scan's single `Max(size(srcs))` call, the per-source
traversals, then the deferred chmods in reverse insertion order.  The
pre-scan runs concurrently with the traversal, but it is joined before
`Copy` returns, so every completed run's trace contains its `Max` event; the
claims proved below do not depend on its position.  `force` only changes
behaviour when a destination operation fails, which this happy-backend trace
does not exercise. -/
def copyTrace (srcs : List Source) (dstRoot : FSPath) (dstStat : Option Bool)
    (_force : Bool) : List Ev :=
  let body := sourcesEvents (dstIsDirGo srcs dstStat) dstRoot srcs
  Ev.maxEv (sizeGo srcs) :: body.1 ++ chmodEvents body.2.reverse

/-! ## ccp.go: run and main (ccp.go:248-317) -/

/-- Shallow embedding of `run` (ccp.go:248-289): fewer than two positional
arguments is a usage error; a failed `sftpfs.Dial` is returned as a fatal
error before copying; otherwise `run` returns an error exactly when the model
accumulated at least one per-file error from `FileDone`. -/
def runGo (argc : Nat) (fatalDial : Option GErr) (errs : List String) : Option String :=
  if argc < 2 then some "usage error"
  else
    match fatalDial with
    | some _ => some "connection error"
    | none => if errs.length > 0 then some "exiting with one or more errors" else none

/-- Shallow embedding of `main`'s exit behaviour (ccp.go:311-317): a non-nil
`run` result is printed and the process exits 1, otherwise it exits 0. -/
def mainExitCode (argc : Nat) (fatalDial : Option GErr) (errs : List String) : Nat :=
  match runGo argc fatalDial errs with
  | none => 0
  | some _ => 1

/-! ## The worker-pool semaphore (cp.go:191-193, 217-224, 257-259)

`sem := make(chan struct{}, 10)`: the traversal sends a token before
spawning each regular-file worker, the worker receives a token on exit, and
after the traversal the main goroutine sends 10 more tokens before running
the deferred chmods.  The protocol is abstracted as a transition system:
`pending` counts regular files not yet dispatched, `streaming` the dispatched
workers that have not exited (the byte-streaming phase), `drained` the tokens
the post-traversal drain loop has placed, and `chmodPhase` whether the
deferred-chmod loop has started.  Channel occupancy is
`streaming + drained`; a send blocks unless it is below the capacity 10. -/

/-- Abstract state of the worker pool. -/
structure PoolState where
  pending : Nat
  streaming : Nat
  drained : Nat
  chmodPhase : Bool
deriving DecidableEq, Repr

/-- Transitions of the pool protocol. `dispatch` is the traversal's
`sem <- struct{}{}` followed by `go ...` (cp.go:218-219); `finish` is a
worker's deferred `<-sem` on exit (cp.go:220); `drain` is one iteration of
the post-traversal `for range maxConcurrency { sem <- struct{}{} }`
(cp.go:257-259), which only runs once dispatching is over; `startChmod`
begins the deferred-chmod loop, reachable only after the drain loop placed
all 10 tokens. -/
inductive PoolStep : PoolState → PoolState → Prop where
  | dispatch (s : PoolState) :
      0 < s.pending → s.streaming + s.drained < 10 →
      PoolStep s { s with pending := s.pending - 1, streaming := s.streaming + 1 }
  | finish (s : PoolState) :
      0 < s.streaming →
      PoolStep s { s with streaming := s.streaming - 1 }
  | drain (s : PoolState) :
      s.pending = 0 → s.streaming + s.drained < 10 →
      PoolStep s { s with drained := s.drained + 1 }
  | startChmod (s : PoolState) :
      s.drained = 10 →
      PoolStep s { s with chmodPhase := true }

/-- Reachability from the initial state of a run with `n` regular files. -/
def PoolReach (n : Nat) (s : PoolState) : Prop :=
  Relation.ReflTransGen PoolStep ⟨n, 0, 0, false⟩ s

/-- The pool invariant: channel occupancy never exceeds the capacity 10, and
the chmod phase is only entered with all 10 tokens drained. -/
theorem poolInvariant (n : Nat) (s : PoolState) (h : PoolReach n s) :
    s.streaming + s.drained ≤ 10 ∧ (s.chmodPhase = true → s.drained = 10) := by
  induction h with
  | refl => simp
  | tail _ hstep ih =>
    obtain ⟨ih1, ih2⟩ := ih
    cases hstep with
    | dispatch hp hlt =>
      refine ⟨?_, fun hc => ?_⟩
      · dsimp only; omega
      · dsimp only at hc ⊢; exact ih2 hc
    | finish hs =>
      refine ⟨?_, fun hc => ?_⟩
      · dsimp only; omega
      · dsimp only at hc ⊢; exact ih2 hc
    | drain hp hlt =>
      refine ⟨?_, fun hc => ?_⟩
      · dsimp only; omega
      · dsimp only at hc ⊢
        have hd10 := ih2 hc
        omega
    | startChmod hd =>
      refine ⟨?_, fun _ => ?_⟩
      · dsimp only; omega
      · dsimp only; omega

/-! ## Per-visit accounting lemmas -/

theorem sizeStep_eq (n : Nat) (v : Visit) : sizeStep n v = n + visitUnits v := by
  rcases v with ⟨rel, k⟩ | rel
  · rcases k with ⟨sz, iok⟩ | ⟨m, iok⟩ | t | _ <;> simp [sizeStep, visitUnits]
    cases iok <;> simp [Nat.add_comm]
  · simp [sizeStep, visitUnits]

theorem foldl_sizeStep (vs : List Visit) (n : Nat) :
    vs.foldl sizeStep n = n + (vs.map visitUnits).sum := by
  induction vs generalizing n with
  | nil => simp
  | cons v vs ih => simp [List.foldl_cons, ih, sizeStep_eq]; omega

theorem sizeGo_eq_specTotal (srcs : List Source) : sizeGo srcs = specTotal srcs := by
  suffices h : ∀ n, srcs.foldl (fun n s => s.visits.foldl sizeStep n) n = n + specTotal srcs by
    simpa using h 0
  induction srcs with
  | nil => intro n; simp [specTotal]
  | cons s ss ih =>
    intro n
    rw [List.foldl_cons, ih, foldl_sizeStep]
    simp [specTotal]
    omega

/-! ## Claim theorems: error handling (C3, C6, C7, C9) -/

/-- C6: the code under test, evaluated at its failing input.  A directory
whose initial `Remove` fails (errCode 39, e.g. ENOTEMPTY), whose `Lstat`
reports a directory, whose children are all gone and whose final `Remove`
fails with not-exist: the claim says the not-exist failure of the final
remove is treated as success, but `removeDir` tests `errors.Is` on the
accumulated child error instead of the final `Remove` error (wfs.go:87) and
returns the not-exist error. -/
theorem c6_final_remove_notexist_is_error :
    RemoveAllGo ⟨some (GErr.errCode 39), Except.ok true, none, RForest.nil, some GErr.notExist⟩
      = some GErr.notExist ∧
    RemoveAllGo ⟨some (GErr.errCode 39), Except.ok true, none, RForest.nil, some GErr.notExist⟩
      ≠ none := by
  constructor
  · simp [RemoveAllGo, removeDirT, firstChildErr]
  · simp [RemoveAllGo, removeDirT, firstChildErr]

/-- C3 counterexample: with `force` true, a failing first call, an existing
destination and a FAILING remove-all, `openWithRetry` returns the remove-all
error after a single `fn()` call — the claim's "the call is retried exactly
once, with the retry's result propagated" is false here (the retry would
have succeeded). -/
theorem c3_removeall_failure_not_retried :
    openWithRetryGo true ⟨some (GErr.errCode 1), none, some (GErr.errCode 2), none⟩
        = ([RAct.callFn, RAct.removeAllA], some (GErr.errCode 2))
    ∧ ((openWithRetryGo true
          ⟨some (GErr.errCode 1), none, some (GErr.errCode 2), none⟩).1.count RAct.callFn ≠ 2
       ∧ (openWithRetryGo true
          ⟨some (GErr.errCode 1), none, some (GErr.errCode 2), none⟩).2 ≠ none) := by
  refine ⟨rfl, by decide, by decide⟩

/-- C3 (amended): the open-with-retry policy returns a successful first call;
propagates the first call's error when `force` is false or the destination's
lstat reports not-exist; otherwise runs remove-all, propagating ITS error
without retrying when it fails; and only when remove-all succeeds retries the
call exactly once, propagating the retry's result. -/
theorem c3_retry_policy_amended (force : Bool) (o : RetryOracle) :
    openWithRetryGo force o = retrySpecAmended force o := by
  rcases o with ⟨f1, ls, ra, rr⟩
  rcases f1 with _ | e
  · simp [openWithRetryGo, retrySpecAmended]
  · cases force
    · simp [openWithRetryGo, retrySpecAmended]
    · by_cases h : ls = some GErr.notExist <;>
        rcases ra with _ | e2 <;>
          simp [openWithRetryGo, retrySpecAmended, existsGo, h]

/-- C9: `FSPath.exists` treats any lstat outcome other than a not-exist
error as "the destination exists", so with `force` true a failing creation
whose destination lstat fails with any non-not-exist error (for example
permission-denied) still proceeds to remove-all and the retry, rather than
propagating the original error. -/
theorem c9_lstat_error_counts_as_exists (o : RetryOracle) (e0 e : GErr)
    (h1 : o.firstRes = some e0) (h2 : o.lstatErr = some e) (h3 : e ≠ GErr.notExist) :
    existsGo o.lstatErr = true
    ∧ RAct.removeAllA ∈ (openWithRetryGo true o).1
    ∧ (openWithRetryGo true o).2
        = (match o.removeAllRes with
           | some e2 => some e2
           | none => o.retryRes) := by
  have hex : existsGo o.lstatErr = true := by
    simp [existsGo, h2, h3]
  refine ⟨hex, ?_, ?_⟩ <;>
    rcases o with ⟨f1, ls, ra, rr⟩ <;>
      simp_all [openWithRetryGo] <;>
        rcases ra with _ | e2 <;> simp

/-- C9 witness: a concrete permission-denied lstat with a failing first call
and a successful remove-all. -/
theorem c9_lstat_error_witness :
    existsGo (some GErr.permission) = true
    ∧ RAct.removeAllA ∈
        (openWithRetryGo true ⟨some (GErr.errCode 7), some GErr.permission, none, none⟩).1
    ∧ (openWithRetryGo true ⟨some (GErr.errCode 7), some GErr.permission, none, none⟩).2
        = none :=
  c9_lstat_error_counts_as_exists
    ⟨some (GErr.errCode 7), some GErr.permission, none, none⟩
    (GErr.errCode 7) GErr.permission rfl rfl (by decide)

/-- C7 counterexample: one positional argument is a usage error, and the
process exits with status 1, not 2. -/
theorem c7_usage_error_exits_one :
    mainExitCode 1 none [] = 1 ∧ mainExitCode 1 none [] ≠ 2 := by
  constructor <;> decide

/-- C7 (amended): ccp exits 0 on full success, and 1 on any per-file error,
fatal connection error, or usage error (fewer than two positional
arguments); no path through `run`/`main` exits with status 2. -/
theorem c7_exit_codes_amended (argc : Nat) (fatal : Option GErr) (errs : List String) :
    mainExitCode argc fatal errs = if argc < 2 ∨ fatal ≠ none ∨ errs ≠ [] then 1 else 0 := by
  rcases fatal with _ | e
  · rcases errs with _ | ⟨x, xs⟩ <;>
      by_cases h : argc < 2 <;> simp [mainExitCode, runGo, h]
  · by_cases h : argc < 2 <;> simp [mainExitCode, runGo, h]

/-! ## Claim theorem: the worker pool (C8) -/

/-- C8: in every state reachable by the worker-pool protocol, at most 10
regular-file copies are in their byte-streaming phase, and once the
deferred-chmod phase has started (which requires the drain loop to have
placed all 10 tokens) no worker is still streaming. -/
theorem c8_worker_pool_bound (n : Nat) (s : PoolState) (h : PoolReach n s) :
    s.streaming ≤ 10 ∧ (s.chmodPhase = true → s.streaming = 0) := by
  have hinv := poolInvariant n s h
  refine ⟨by omega, fun hc => ?_⟩
  have hd := hinv.2 hc
  omega

/-- C8 witness: the state after dispatching the single file of a one-file
run is reachable and satisfies the bound. -/
theorem c8_worker_pool_bound_witness :
    (PoolState.mk 0 1 0 false).streaming ≤ 10
    ∧ ((PoolState.mk 0 1 0 false).chmodPhase = true →
        (PoolState.mk 0 1 0 false).streaming = 0) :=
  c8_worker_pool_bound 1 ⟨0, 1, 0, false⟩
    (Relation.ReflTransGen.single
      (PoolStep.dispatch ⟨1, 0, 0, false⟩ (by decide) (by decide)))

/-! ## Trace lemmas for the pre-scan and traversal claims -/

/-- Recognizes `Max` events. -/
def isMaxEv : Ev → Bool
  | .maxEv _ => true
  | _ => false

/-- Recognizes `FileStart` events. -/
def isFileStartEv : Ev → Bool
  | .fileStartEv _ _ => true
  | _ => false

/-- Recognizes `FileDone` events. -/
def isFileDoneEv : Ev → Bool
  | .fileDoneEv _ _ => true
  | _ => false

/-- Recognizes the unknown-file-type `FileDone` error. -/
def isUnknownDoneEv : Ev → Bool
  | .fileDoneEv _ (some GErr.unknownType) => true
  | _ => false

/-- Recognizes visits of entries that are neither regular file, directory
nor symlink. -/
def isOtherVisit : Visit → Bool
  | .entry _ .other => true
  | _ => false

theorem filter_isMax_map_progress (l : List Nat) :
    (l.map Ev.progressEv).filter isMaxEv = [] := by
  induction l with
  | nil => rfl
  | cons x xs ih => simp [isMaxEv, ih]

theorem dispatchFile_filter_isMax (src dst : FSPath) (o : FileOracle) :
    (dispatchFile src dst o).filter isMaxEv = [] := by
  rcases o with ⟨op, st, ce, ch, sf, cl⟩
  cases op <;> cases st <;> rcases ce with _ | e <;> cases sf <;> cases cl <;>
    simp [dispatchFile, copyRegularFileT, isMaxEv, List.filter_append,
      filter_isMax_map_progress]

theorem visitEvents_filter_isMax (srcFs : Nat) (cr : String) (droot : FSPath) (v : Visit) :
    (visitEvents srcFs cr droot v).1.filter isMaxEv = [] := by
  rcases v with ⟨rel, k⟩ | rel
  · rcases k with ⟨sz, iok⟩ | ⟨m, iok⟩ | t | _ <;>
      simp only [visitEvents, dispatchFile_filter_isMax]
    · cases iok <;> by_cases hm : m &&& 0o300 = 0o300 <;>
        simp [isMaxEv, hm]
    · simp [isMaxEv]
    · simp [isMaxEv]
  · simp [visitEvents, isMaxEv]

theorem visitsEvents_filter_isMax (srcFs : Nat) (cr : String) (droot : FSPath)
    (vs : List Visit) :
    (visitsEvents srcFs cr droot vs).1.filter isMaxEv = [] := by
  induction vs with
  | nil => rfl
  | cons v vs ih =>
    simp [visitsEvents, List.filter_append, visitEvents_filter_isMax, ih]

theorem sourcesEvents_filter_isMax (isDir : Bool) (dstRoot : FSPath) (srcs : List Source) :
    (sourcesEvents isDir dstRoot srcs).1.filter isMaxEv = [] := by
  induction srcs with
  | nil => rfl
  | cons s ss ih =>
    simp [sourcesEvents, List.filter_append, visitsEvents_filter_isMax, ih]

theorem chmodEvents_filter_isMax (l : List (FSPath × Nat)) :
    (chmodEvents l).filter isMaxEv = [] := by
  induction l with
  | nil => rfl
  | cons pm rest ih =>
    rcases pm with ⟨p, m⟩
    simp [chmodEvents, isMaxEv, ih]

/-! ## Claim theorems: pre-scan accounting (C2, C10) -/

/-- C2: the only `Max` event of any `Copy` trace — the pre-scan is spawned
once and joined before `Copy` returns, so every completed run reports it
exactly once — carries the sum, over all entries reachable by walking each
source tree, of 1 per symlink, 1 per directory and `size + 1` per regular
file, entries whose walk or `Info` errors contributing nothing. -/
theorem c2_prescan_total (srcs : List Source) (dstRoot : FSPath) (dstStat : Option Bool)
    (force : Bool) :
    (copyTrace srcs dstRoot dstStat force).filter isMaxEv = [Ev.maxEv (specTotal srcs)] := by
  simp [copyTrace, List.filter_append, isMaxEv, sourcesEvents_filter_isMax,
    chmodEvents_filter_isMax, sizeGo_eq_specTotal]

theorem dispatchFile_countP_unknown (src dst : FSPath) (sz : Nat) :
    (dispatchFile src dst (happyOracle sz)).countP isUnknownDoneEv = 0 := by
  simp [dispatchFile, copyRegularFileT, happyOracle, isUnknownDoneEv,
    List.countP_append, List.countP_cons, List.countP_map, Function.comp]

theorem visitEvents_countP_unknown (srcFs : Nat) (cr : String) (droot : FSPath) (v : Visit) :
    (visitEvents srcFs cr droot v).1.countP isUnknownDoneEv
      = (if isOtherVisit v then 1 else 0) := by
  rcases v with ⟨rel, k⟩ | rel
  · rcases k with ⟨sz, iok⟩ | ⟨m, iok⟩ | t | _ <;>
      simp only [visitEvents, isOtherVisit]
    · simp [dispatchFile_countP_unknown]
    · cases iok <;> by_cases hm : m &&& 0o300 = 0o300 <;>
        simp [isUnknownDoneEv, hm, List.countP_cons]
    · simp [isUnknownDoneEv, List.countP_cons]
    · simp [isUnknownDoneEv, List.countP_cons]
  · simp [visitEvents, isOtherVisit, isUnknownDoneEv, List.countP_cons]

theorem visitsEvents_countP_unknown (srcFs : Nat) (cr : String) (droot : FSPath)
    (vs : List Visit) :
    (visitsEvents srcFs cr droot vs).1.countP isUnknownDoneEv
      = vs.countP isOtherVisit := by
  induction vs with
  | nil => rfl
  | cons v vs ih =>
    simp [visitsEvents, List.countP_append, List.countP_cons, ih,
      visitEvents_countP_unknown]
    cases hv : isOtherVisit v <;> simp [Nat.add_comm]

theorem sourcesEvents_countP_unknown (isDir : Bool) (dstRoot : FSPath) (srcs : List Source) :
    (sourcesEvents isDir dstRoot srcs).1.countP isUnknownDoneEv
      = (srcs.map (fun s => s.visits.countP isOtherVisit)).sum := by
  induction srcs with
  | nil => rfl
  | cons s ss ih =>
    simp [sourcesEvents, List.countP_append, visitsEvents_countP_unknown, ih]

theorem chmodEvents_countP_unknown (l : List (FSPath × Nat)) :
    (chmodEvents l).countP isUnknownDoneEv = 0 := by
  induction l with
  | nil => rfl
  | cons pm rest ih =>
    rcases pm with ⟨p, m⟩
    simp [chmodEvents, isUnknownDoneEv, List.countP_cons, ih]

/-- Sources with the other-kind entries removed from their walks. -/
def dropOthers (srcs : List Source) : List Source :=
  srcs.map fun s => ⟨s.fsId, s.path, s.visits.filter (fun v => !isOtherVisit v)⟩

theorem visitUnits_other (v : Visit) (h : isOtherVisit v = true) : visitUnits v = 0 := by
  rcases v with ⟨rel, k⟩ | rel
  · rcases k with ⟨sz, iok⟩ | ⟨m, iok⟩ | t | _ <;> simp_all [isOtherVisit, visitUnits]
  · simp [visitUnits]

theorem specTotal_dropOthers (srcs : List Source) :
    specTotal (dropOthers srcs) = specTotal srcs := by
  unfold specTotal dropOthers
  induction srcs with
  | nil => rfl
  | cons s ss ih =>
    simp only [List.map_cons, List.sum_cons, List.map_map] at *
    rw [ih]
    congr 1
    induction s.visits with
    | nil => rfl
    | cons v vs ihv =>
      cases hv : isOtherVisit v
      · simp [List.filter_cons, hv, ihv]
      · simp [List.filter_cons, hv, ihv, visitUnits_other v hv]

/-- C10: every entry whose kind is neither regular file, directory nor
symlink produces exactly one unknown-file-type `FileDone` error in the main
traversal, while the pre-scan counts zero work units for it: removing all
such entries from the walks leaves `size`'s total unchanged, so `Max`
excludes them entirely. -/
theorem c10_other_kinds_unaccounted (srcs : List Source) (dstRoot : FSPath)
    (dstStat : Option Bool) (force : Bool) :
    (copyTrace srcs dstRoot dstStat force).countP isUnknownDoneEv
        = (srcs.map (fun s => s.visits.countP isOtherVisit)).sum
    ∧ sizeGo srcs = sizeGo (dropOthers srcs) := by
  constructor
  · simp [copyTrace, List.countP_cons, List.countP_append, isUnknownDoneEv,
      sourcesEvents_countP_unknown, chmodEvents_countP_unknown]
  · rw [sizeGo_eq_specTotal, sizeGo_eq_specTotal, specTotal_dropOthers]

/-! ## Claim theorems: destination naming and per-file reporting (C1, C4, C5) -/

/-- C4: the per-source destination root derivation of `Copy`: when exactly
one source is given and `dstRoot.Stat()` fails or reports a non-directory,
the destination root is `dstRoot` itself (a single source file lands at
`dstRoot`); in every other case the source root's basename is appended to
`dstRoot`. -/
theorem c4_destination_root (srcs : List Source) (dstStat : Option Bool)
    (dstRoot : FSPath) (s : Source) :
    sourceDstRoot (dstIsDirGo srcs dstStat) dstRoot s
      = if srcs.length = 1 ∧ dstStat ≠ some true then dstRoot
        else ⟨dstRoot.fsId, pathJoin dstRoot.path (pathBase s.path)⟩ := by
  rcases dstStat with _ | b
  · by_cases h : srcs.length = 1 <;> simp [sourceDstRoot, dstIsDirGo, h]
  · cases b <;> by_cases h : srcs.length = 1 <;> simp [sourceDstRoot, dstIsDirGo, h]

/-- Success of one regular-file copy: every backend operation involved
succeeded. -/
def fileSuccess (o : FileOracle) : Prop :=
  o.openOk = true ∧ o.statOk = true ∧ o.createErr = none
    ∧ o.streamFail = false ∧ o.closeOk = true

/-- C5: for every regular file the traversal dispatches, the per-file trace
opens with its `FileStart` (before any byte is streamed), ends with exactly
one `FileDone` — carrying nil on success and the failure's error otherwise —
and everything in between (the successful create and the per-chunk
`Progress` calls) is neither a `FileStart` nor a `FileDone`. -/
theorem c5_filestart_filedone (src dst : FSPath) (o : FileOracle) :
    ∃ mid : List Ev,
      dispatchFile src dst o
          = Ev.fileStartEv src dst
              :: (mid ++ [Ev.fileDoneEv src (copyRegularFileT src dst o).2])
      ∧ (∀ e ∈ mid, isFileStartEv e = false ∧ isFileDoneEv e = false)
      ∧ ((copyRegularFileT src dst o).2 = none ↔ fileSuccess o) := by
  rcases o with ⟨op, st, ce, ch, sf, cl⟩
  cases op
  · exact ⟨[], by simp [dispatchFile, copyRegularFileT], by simp,
      by simp [dispatchFile, copyRegularFileT, fileSuccess]⟩
  cases st
  · exact ⟨[], by simp [dispatchFile, copyRegularFileT], by simp,
      by simp [dispatchFile, copyRegularFileT, fileSuccess]⟩
  rcases ce with _ | e
  · cases sf
    · cases cl
      · refine ⟨Ev.createEv dst :: (ch.filter (fun n => decide (0 < n))).map Ev.progressEv,
          by simp [dispatchFile, copyRegularFileT], ?_,
          by simp [dispatchFile, copyRegularFileT, fileSuccess]⟩
        intro e he
        rcases List.mem_cons.mp he with rfl | he
        · simp [isFileStartEv, isFileDoneEv]
        · obtain ⟨n, _, rfl⟩ := List.mem_map.mp he
          simp [isFileStartEv, isFileDoneEv]
      · refine ⟨Ev.createEv dst
            :: ((ch.filter (fun n => decide (0 < n))).map Ev.progressEv ++ [Ev.progressEv 1]),
          by simp [dispatchFile, copyRegularFileT], ?_,
          by simp [dispatchFile, copyRegularFileT, fileSuccess]⟩
        intro e he
        rcases List.mem_cons.mp he with rfl | he
        · simp [isFileStartEv, isFileDoneEv]
        · rcases List.mem_append.mp he with he | he
          · obtain ⟨n, _, rfl⟩ := List.mem_map.mp he
            simp [isFileStartEv, isFileDoneEv]
          · rw [List.mem_singleton] at he
            subst he
            simp [isFileStartEv, isFileDoneEv]
    · refine ⟨Ev.createEv dst :: (ch.filter (fun n => decide (0 < n))).map Ev.progressEv,
        by simp [dispatchFile, copyRegularFileT], ?_,
        by simp [dispatchFile, copyRegularFileT, fileSuccess]⟩
      intro e he
      rcases List.mem_cons.mp he with rfl | he
      · simp [isFileStartEv, isFileDoneEv]
      · obtain ⟨n, _, rfl⟩ := List.mem_map.mp he
        simp [isFileStartEv, isFileDoneEv]
  · exact ⟨[], by simp [dispatchFile, copyRegularFileT], by simp,
      by simp [dispatchFile, copyRegularFileT, fileSuccess]⟩

/-- The single source of the C1 scenario: the regular file `a`, 5 bytes,
walked as its own source root. -/
def c1Src : Source := ⟨0, "a", [Visit.entry "" (EntryKind.regular 5 true)]⟩

/-- C1: `Copy` with source `a` and destination `a` on the same backend — the
derived destination root equals the normalized source root.  The claim says
a "same file" `FileDone` error is reported and the source is skipped with no
writes; the trace of cp.go instead creates (truncates) `a` itself, streams
into it and reports an error-free `FileDone`: src/internal/cp/cp.go has no
same-file check. -/
theorem c1_no_same_file_guard :
    copyTrace [c1Src] ⟨0, "a"⟩ (some false) false
      = [Ev.maxEv 6,
         Ev.fileStartEv ⟨0, "a"⟩ ⟨0, "a"⟩,
         Ev.createEv ⟨0, "a"⟩,
         Ev.progressEv 5, Ev.progressEv 1,
         Ev.fileDoneEv ⟨0, "a"⟩ none]
    ∧ Ev.createEv ⟨0, "a"⟩ ∈ copyTrace [c1Src] ⟨0, "a"⟩ (some false) false
    ∧ (∀ er, Ev.fileDoneEv ⟨0, "a"⟩ (some er) ∉ copyTrace [c1Src] ⟨0, "a"⟩ (some false) false) := by
  refine ⟨by decide, by decide, ?_⟩
  intro er
  have h : copyTrace [c1Src] ⟨0, "a"⟩ (some false) false
      = [Ev.maxEv 6,
         Ev.fileStartEv ⟨0, "a"⟩ ⟨0, "a"⟩,
         Ev.createEv ⟨0, "a"⟩,
         Ev.progressEv 5, Ev.progressEv 1,
         Ev.fileDoneEv ⟨0, "a"⟩ none] := by decide
  rw [h]
  simp
